import Mathlib

/-!
Verification of the qPCR methylation report generator's core data layer.

The development shallowly embeds the Python sources:
  * `data_parser.py` — `safe_float_convert`, `parse_qpcr_csv`,
    `extract_sample_data`, `get_all_samples`;
  * `report_generator.py` — `extract_plate_info`.

Strings are modelled via their character lists (`String.data`); Python
exceptions become an explicit `PyErr` sum carried in `Except`; Python's
`float` values are modelled exactly by `PyFloat` (a normalized rational,
an infinity, or a nan — binary64 rounding is not modelled, which is
irrelevant to the stated claims since they only compare parses of short
decimal literals).  All character classes are the ASCII ones, matching
the data this program consumes.
-/

/-! ### Character helpers (ASCII models of the Python `str` methods used) -/

/-- ASCII decimal digit, the `\d`/`float` digit class used by the sources. -/
def isDigitC (c : Char) : Bool := 48 ≤ c.toNat && c.toNat ≤ 57

/-- ASCII upper-case letter, the `[A-Z]` class of `extract_plate_info`. -/
def isUpperAZ (c : Char) : Bool := 65 ≤ c.toNat && c.toNat ≤ 90

/-- Whitespace stripped by Python's `str.strip()` and `float()`:
space, tab, newline, carriage return, vertical tab, form feed. -/
def isWsC (c : Char) : Bool :=
  c.toNat = 32 || c.toNat = 9 || c.toNat = 10 || c.toNat = 13 || c.toNat = 11 || c.toNat = 12

/-- ASCII model of the per-character effect of Python's `str.upper()`. -/
def toUpperC (c : Char) : Char :=
  if 97 ≤ c.toNat ∧ c.toNat ≤ 122 then Char.ofNat (c.toNat - 32) else c

/-- ASCII model of the per-character effect of Python's `str.lower()`. -/
def toLowerC (c : Char) : Char :=
  if 65 ≤ c.toNat ∧ c.toNat ≤ 90 then Char.ofNat (c.toNat + 32) else c

/-- Python `str.strip()` (and the whitespace stripping done by `float()`):
drop leading and trailing whitespace. -/
def stripWs (l : List Char) : List Char :=
  ((l.dropWhile isWsC).reverse.dropWhile isWsC).reverse

/-- Python `str.strip('"')`: drop every leading and trailing `"`. -/
def stripQuotes (s : String) : String :=
  ⟨((s.data.dropWhile (· = '"')).reverse.dropWhile (· = '"')).reverse⟩

/-! ### Python float values

`PyRat` is a rational kept in lowest terms with positive denominator; it is
produced only through `mkPyRat`, so structural equality coincides with
equality of the represented rational values. -/

structure PyRat where
  num : Int
  den : Nat
deriving DecidableEq

/-- Normalise `n / d` (for `d > 0`) to lowest terms. -/
def mkPyRat (n : Int) (d : Nat) : PyRat :=
  let g := Nat.gcd n.natAbs d
  if g = 0 then ⟨0, 0⟩ else ⟨n / (g : Int), d / g⟩

/-- The value of a Python `float`: finite rational, signed infinity, or nan. -/
inductive PyFloat where
  | finite : PyRat → PyFloat
  | inf : Bool → PyFloat
  | nan : PyFloat
deriving DecidableEq

/-! ### The grammar accepted by Python's `float(str)`

Modelled from CPython's string-to-float conversion: optional surrounding
whitespace, an optional sign, then either `inf`/`infinity`/`nan`
(case-insensitive) or a decimal literal `digits [. digits] [e[sign]digits]`
where each digit group may contain single underscores between digits. -/

/-- Digit value of a digit-character list (most significant first). -/
def digitsVal (l : List Char) : Nat :=
  l.foldl (fun n c => 10 * n + (c.toNat - 48)) 0

/-- Is `c` a digit or an underscore (the characters of a Python digit group)? -/
def isDigitU (c : Char) : Bool := isDigitC c || c.toNat = 95

/-- Validity of a Python digit group: when `needDigit` is `true` the next
character must be a digit; an underscore must be both preceded and followed
by a digit.  A valid group is nonempty, starts and ends with a digit, and
has no adjacent underscores. -/
def digitsURun (needDigit : Bool) : List Char → Bool
  | [] => !needDigit
  | c :: rest =>
    if needDigit then isDigitC c && digitsURun false rest
    else if c.toNat = 95 then digitsURun true rest
    else isDigitC c && digitsURun false rest

/-- A nonempty Python digit group (digits with single interior underscores). -/
def validDigitsU (l : List Char) : Bool := !l.isEmpty && digitsURun true l

/-- Take the longest run of digit-or-underscore characters. -/
def takeDigitU (l : List Char) : List Char := l.takeWhile isDigitU

/-- Drop the longest run of digit-or-underscore characters. -/
def dropDigitU (l : List Char) : List Char := l.dropWhile isDigitU

/-- Optional leading sign; returns (isNegative, rest). -/
def parseSign (l : List Char) : Bool × List Char :=
  match l with
  | [] => (false, [])
  | c :: t => if c = '-' then (true, t) else if c = '+' then (false, t) else (false, l)

/-- Build the finite float value `±(intD.fracD) · 10^e` (underscores in the
digit groups are ignored, as in Python). -/
def mkFinite (neg : Bool) (intD fracD : List Char) (e : Int) : PyFloat :=
  let mant : Nat := digitsVal ((intD ++ fracD).filter isDigitC)
  let k : Nat := (fracD.filter isDigitC).length
  let n : Int := (if neg then -(mant : Int) else (mant : Int)) * (10 : Int) ^ e.toNat
  .finite (mkPyRat n (10 ^ k * 10 ^ (-e).toNat))

/-- Parse the optional exponent suffix `[eE][sign]digits` at end of input. -/
def parseExpTail (neg : Bool) (intD fracD : List Char) : List Char → Option PyFloat
  | [] => some (mkFinite neg intD fracD 0)
  | c :: r2 =>
    if c = 'e' ∨ c = 'E' then
      let s := parseSign r2
      let t3 := takeDigitU s.2
      if validDigitsU t3 && (dropDigitU s.2).isEmpty then
        some (mkFinite neg intD fracD
          (if s.1 then -(digitsVal (t3.filter isDigitC) : Int) else (digitsVal (t3.filter isDigitC) : Int)))
      else none
    else none

/-- Parse `. digits…` once the integer digit group `t1` has been consumed. -/
def parseFracThen (neg : Bool) (t1 r2 : List Char) : Option PyFloat :=
  let t2 := takeDigitU r2
  if !t2.isEmpty && !validDigitsU t2 then none
  else if t1.isEmpty && t2.isEmpty then none
  else parseExpTail neg t1 t2 (dropDigitU r2)

/-- Parse a decimal literal (after sign, known not to be inf/nan). -/
def parseNumber (neg : Bool) (l1 : List Char) : Option PyFloat :=
  let t1 := takeDigitU l1
  if !t1.isEmpty && !validDigitsU t1 then none
  else
    match dropDigitU l1 with
    | [] => if t1.isEmpty then none else parseExpTail neg t1 [] []
    | c :: r2 =>
      if c = '.' then parseFracThen neg t1 r2
      else if t1.isEmpty then none else parseExpTail neg t1 [] (c :: r2)

/-- Python's `float(str)` on a character list: `none` models `ValueError`. -/
def pyFloatParseL (l : List Char) : Option PyFloat :=
  let l0 := stripWs l
  if l0.isEmpty then none
  else
    let s := parseSign l0
    let low := s.2.map toLowerC
    if low = "inf".data ∨ low = "infinity".data then some (.inf s.1)
    else if low = "nan".data then some .nan
    else parseNumber s.1 s.2

/-- Python's `float(str)`. -/
def pyFloatParse (s : String) : Option PyFloat := pyFloatParseL s.data

/-- Embedding of `data_parser.safe_float_convert` (`data_parser.py:10-29`):
empty string → `None`; `strip().upper() == 'UNDETERMINED'` → `40.0`;
otherwise `float(...)`, with `ValueError` caught and turned into `None`. -/
def safe_float_convert (cq_value : String) : Option PyFloat :=
  if cq_value.data = [] then none
  else if (stripWs cq_value.data).map toUpperC = "UNDETERMINED".data then some (.finite ⟨40, 1⟩)
  else pyFloatParseL cq_value.data

/-! ### Export parser (`data_parser.parse_qpcr_csv`, `data_parser.py:32-66`)

A file is modelled as its list of lines (without terminators).  The Python
exceptions that can escape `parse_qpcr_csv` form `PyErr`:
`raise ValueError(f"Could not find header row in {file_path}")` when no
header line is found, and the `AttributeError` raised by the cleaning
comprehension `{k.strip('"'): v.strip('"') …}` when `csv.DictReader` pads a
short row with `None` (`restval`) or collects extra cells under the `None`
key (`restkey`), on which `.strip` does not exist. -/

inductive PyErr where
  | headerNotFound : String → PyErr
  | attributeError : PyErr
deriving DecidableEq

instance {α β : Type} [DecidableEq α] [DecidableEq β] : DecidableEq (Except α β) := fun
  | .error e, .error f =>
    match decEq e f with
    | isTrue h => isTrue (congrArg Except.error h)
    | isFalse h => isFalse fun c => by injection c with h2; exact h h2
  | .error _, .ok _ => isFalse fun c => Except.noConfusion c
  | .ok _, .error _ => isFalse fun c => Except.noConfusion c
  | .ok x, .ok y =>
    match decEq x y with
    | isTrue h => isTrue (congrArg Except.ok h)
    | isFalse h => isFalse fun c => by injection c with h2; exact h h2

/-- One parsed data row: a Python dict as an insertion-ordered association
list with distinct keys — field names mapped to quote-stripped values. -/
abbrev RawRow : Type := List (String × String)

/-- The field-parsing states of CPython's `_csv.c` reader that can occur
inside one record: at the start of a field, inside an unquoted field,
inside a quoted field, and just after a quote inside a quoted field. -/
inductive CSVState where
  | fieldStart
  | inField
  | inQuoted
  | quoteInQuoted
deriving DecidableEq

/-- CPython's `csv` reader state machine on one line (default dialect:
delimiter `,`, quote `"`, doublequote, non-strict).  The quote character is
special only at the start of a field; inside an unquoted field it is a
literal character.  Inside a quoted field, `""` is a literal quote, and a
closing quote followed by more text falls back to an unquoted field.  At
end of line the current field is saved in every state (non-strict EOF
behaviour; an end of line inside a quoted field — an unterminated quote —
is where the real reader would instead continue onto the next line, which
is why the final state is returned alongside the fields). -/
def splitCSVAux : CSVState → List Char → List Char → List String × CSVState
  | st, cur, [] => ([⟨cur.reverse⟩], st)
  | .fieldStart, cur, c :: rest =>
    if c = '"' then splitCSVAux .inQuoted cur rest
    else if c = ',' then
      let r := splitCSVAux .fieldStart [] rest
      ((⟨cur.reverse⟩ : String) :: r.1, r.2)
    else splitCSVAux .inField (c :: cur) rest
  | .inField, cur, c :: rest =>
    if c = ',' then
      let r := splitCSVAux .fieldStart [] rest
      ((⟨cur.reverse⟩ : String) :: r.1, r.2)
    else splitCSVAux .inField (c :: cur) rest
  | .inQuoted, cur, c :: rest =>
    if c = '"' then splitCSVAux .quoteInQuoted cur rest
    else splitCSVAux .inQuoted (c :: cur) rest
  | .quoteInQuoted, cur, c :: rest =>
    if c = '"' then splitCSVAux .inQuoted ('"' :: cur) rest
    else if c = ',' then
      let r := splitCSVAux .fieldStart [] rest
      ((⟨cur.reverse⟩ : String) :: r.1, r.2)
    else splitCSVAux .inField (c :: cur) rest

/-- CSV fields of one line (`[]` for a blank line). -/
def splitCSVLine (s : String) : List String :=
  if s.data = [] then [] else (splitCSVAux .fieldStart [] s.data).1

/-- The line is a complete record on its own: the reader does not end the
line inside a quoted field.  On such lines the per-line `splitCSVLine`
agrees with the real stream-based reader; a line ending inside a quoted
field would instead absorb the following lines into one multi-line field. -/
def lineComplete (s : String) : Bool :=
  match (splitCSVAux .fieldStart [] s.data).2 with
  | .inQuoted => false
  | _ => true

/-- Python dict insertion: replace the value at an existing key in place,
otherwise append the new binding. -/
def dictUpsert : List (String × String) → String → String → List (String × String)
  | [], k, v => [(k, v)]
  | (k', v') :: rest, k, v =>
    if k' = k then (k', v) :: rest else (k', v') :: dictUpsert rest k v

/-- Build a Python dict from key/value pairs, left to right: first
occurrence fixes the position of a key, the last value for it wins. -/
def dictOfPairs (ps : List (String × String)) : List (String × String) :=
  ps.foldl (fun d p => dictUpsert d p.1 p.2) []

/-- One row of `csv.DictReader` followed by the quote-cleaning
comprehension.  A row whose field count matches the header's becomes
`dict(zip(fieldnames, row))` — duplicate field names collapse, the last
value winning — and then `{k.strip('"'): v.strip('"') for k, v in
row.items()}`, a second dict build over the stripped pairs.  A short or
long row makes the comprehension touch `None` (as `restval` value, resp.
`restkey` key) and raise `AttributeError`. -/
def cleanRow (fieldnames row : List String) : Except PyErr RawRow :=
  if row.length = fieldnames.length then
    .ok (dictOfPairs ((dictOfPairs (List.zip fieldnames row)).map
      (fun p => (stripQuotes p.1, stripQuotes p.2))))
  else .error .attributeError

/-- The parsing loop of `parse_qpcr_csv`: clean each row in order, letting
the first exception abort the whole call. -/
def mapCleanRows (fieldnames : List String) : List (List String) → Except PyErr (List RawRow)
  | [] => .ok []
  | r :: rest =>
    match cleanRow fieldnames r with
    | .error e => .error e
    | .ok row =>
      match mapCleanRows fieldnames rest with
      | .error e => .error e
      | .ok rows => .ok (row :: rows)

/-- `csv.DictReader(lines[header_idx:])` plus the cleaning loop: the first
line provides the field names; blank lines are skipped by `DictReader`
(its `while row == []` loop), every other line is one record. -/
def readRowsFrom : List String → Except PyErr (List RawRow)
  | [] => .ok []
  | header :: rest =>
    mapCleanRows (splitCSVLine header) ((rest.map splitCSVLine).filter (fun r => !r.isEmpty))

/-- The literal header signature `'"Well","Well Position"'` searched for by
`line.startswith(...)` at `data_parser.py:51`. -/
def headerSigL : List Char := ("\"Well\",\"Well Position\"").data

/-- Scan for the first line beginning with the header signature and return
the suffix of the file from that line on (the source computes the index and
slices `lines[header_idx:]`, which is this suffix). -/
def findHeaderSuffix : List String → Option (List String)
  | [] => none
  | l :: rest =>
    if headerSigL.isPrefixOf l.data then some (l :: rest) else findHeaderSuffix rest

/-- Embedding of `data_parser.parse_qpcr_csv` (`data_parser.py:32-66`) on the
line list of the file at `file_path`. -/
def parse_qpcr_csv (file_path : String) (lines : List String) : Except PyErr (List RawRow) :=
  match findHeaderSuffix lines with
  | none => .error (.headerNotFound file_path)
  | some suf => readRowsFrom suf

example : splitCSVLine "\"a\",\"b\"" = ["a", "b"] := by decide
example : splitCSVLine "" = [] := by decide
example : splitCSVLine "a,\"b\"\"c\"" = ["a", "b\"c"] := by decide
example : splitCSVLine "a," = ["a", ""] := by decide
example : splitCSVLine "a\"b,c" = ["a\"b", "c"] := by decide
example : splitCSVLine "1,2,3\"4" = ["1", "2", "3\"4"] := by decide
example : splitCSVLine "\"a\"b,c" = ["ab", "c"] := by decide
example : splitCSVLine "\",\"" = [","] := by decide
example : lineComplete "a\"b,c" = true := by decide
example : lineComplete "\"ab" = false := by decide
example : cleanRow ["a", "a"] ["1", "2"] = .ok [("a", "2")] := by decide
example : cleanRow ["\"a\"", "a"] ["1", "2"] = .ok [("a", "2")] := by decide
example : parse_qpcr_csv "f.csv" ["junk"] = .error (.headerNotFound "f.csv") := by decide
example :
    parse_qpcr_csv "f.csv"
      ["meta", "\"Well\",\"Well Position\"", "\"1\",\"A1\"", "", "\"2\",\"A2\""] =
    .ok [[("Well", "1"), ("Well Position", "A1")], [("Well", "2"), ("Well Position", "A2")]] := by
  decide
example :
    parse_qpcr_csv "f.csv" ["\"Well\",\"Well Position\"", "\"1\""] = .error .attributeError := by
  decide

/-! ### Sample aggregator (`data_parser.py:69-140`)

`extract_sample_data` and `get_all_samples` only read the `Sample`,
`Target` and `Cq` fields of each row dictionary, so a row is modelled as a
record of those three strings. -/

structure QRow where
  Sample : String
  Target : String
  Cq : String
deriving DecidableEq

/-- The dictionary returned by `extract_sample_data`. -/
structure SampleRecord where
  sample_name : String
  icr1_m : List (Option PyFloat)
  icr1_um : List (Option PyFloat)
  icr2_m : List (Option PyFloat)
  icr2_um : List (Option PyFloat)
deriving DecidableEq

/-- One pass of the per-file loop in `extract_sample_data`: rows whose
`Sample` equals `sample_name` have `safe_float_convert(row['Cq'])` appended
to the first list when `Target == mTag`, to the second when
`Target == umTag` (the `elif`), and are otherwise ignored. -/
def extractLoop (mTag umTag sample_name : String) (rows : List QRow) :
    List (Option PyFloat) × List (Option PyFloat) :=
  rows.foldl
    (fun acc r =>
      if r.Sample = sample_name then
        if r.Target = mTag then (acc.1 ++ [safe_float_convert r.Cq], acc.2)
        else if r.Target = umTag then (acc.1, acc.2 ++ [safe_float_convert r.Cq])
        else acc
      else acc)
    ([], [])

/-- Embedding of `data_parser.extract_sample_data` (`data_parser.py:69-118`):
note that the source function takes exactly three parameters and filters on
the fixed target names `ICR1_M`/`ICR1_UM`/`ICR2_M`/`ICR2_UM`. -/
def extract_sample_data (icr1_data icr2_data : List QRow) (sample_name : String) : SampleRecord :=
  let p1 := extractLoop "ICR1_M" "ICR1_UM" sample_name icr1_data
  let p2 := extractLoop "ICR2_M" "ICR2_UM" sample_name icr2_data
  { sample_name := sample_name
    icr1_m := p1.1, icr1_um := p1.2, icr2_m := p2.1, icr2_um := p2.2 }

/-- Modelled from the spec: the five-parameter
`extract_sample_data(file1_rows, file2_rows, sample_id, target1_tag,
target2_tag)` that the spec (§4.3) describes and that
`report_generator.generate_report_win32` calls (`report_generator.py:523`),
filtering file 1 on `<target1_tag>_M` / `<target1_tag>_UM` and file 2 on
`<target2_tag>_M` / `<target2_tag>_UM`.  No function with this signature
exists in `data_parser.py`. -/
def extractSampleDataSpec (file1_rows file2_rows : List QRow)
    (sample_id target1_tag target2_tag : String) : SampleRecord :=
  let p1 := extractLoop (target1_tag ++ "_M") (target1_tag ++ "_UM") sample_id file1_rows
  let p2 := extractLoop (target2_tag ++ "_M") (target2_tag ++ "_UM") sample_id file2_rows
  { sample_name := sample_id
    icr1_m := p1.1, icr1_um := p1.2, icr2_m := p2.1, icr2_um := p2.2 }

/-- Lexicographic comparison of character lists by code point — the order
Python's `sorted` uses on `str`. -/
def listLeB : List Char → List Char → Bool
  | [], _ => true
  | _ :: _, [] => false
  | a :: as, b :: bs =>
    if a.toNat < b.toNat then true
    else if b.toNat < a.toNat then false
    else listLeB as bs

/-- Python's `s <= t` on strings (code-point lexicographic). -/
def strLeB (s t : String) : Bool := listLeB s.data t.data

/-- The sorting relation of `get_all_samples`: Python's string order. -/
def strLeR (s t : String) : Prop := strLeB s t = true

instance : DecidableRel strLeR := fun s t => inferInstanceAs (Decidable (strLeB s t = true))

/-- Embedding of `data_parser.get_all_samples` (`data_parser.py:121-140`):
`set()` of the `Sample` field over both files, then `sorted(...)` —
modelled as deduplication followed by an insertion sort under the
code-point lexicographic order. -/
def get_all_samples (icr1_data icr2_data : List QRow) : List String :=
  List.insertionSort strLeR
    ((icr1_data.map QRow.Sample ++ icr2_data.map QRow.Sample).dedup)

/-! ### Filename pattern extraction
(`report_generator.extract_plate_info`, `report_generator.py:13-38`)

Each of the three `re.search` calls is modelled by a matcher that attempts
the pattern at one position, plus a scan (`searchM`) trying every start
position left to right — `re.search`'s leftmost-match rule.  The bounded
repetition `\d{3,4}` is greedy with backtracking: four digits are tried
first, then three. -/

/-- The literal `METHYLATION_` that each of the three patterns begins with. -/
def methSig : List Char := "METHYLATION_".data

/-- Leftmost-match scan: try the matcher at every suffix, in order
(including the empty suffix, as `re.search` does). -/
def searchM (f : List Char → Option (List Char)) : List Char → Option (List Char)
  | [] => f []
  | c :: t =>
    match f (c :: t) with
    | some r => some r
    | none => searchM f t

/-- Match `METHYLATION_(\d{3,4})` at the current position: after the
literal, a greedy run of at most four digits which must have at least
three. -/
def matchPlateAt (l : List Char) : Option (List Char) :=
  if methSig.isPrefixOf l then
    let d := ((l.drop 12).take 4).takeWhile isDigitC
    if 3 ≤ d.length then some d else none
  else none

/-- Greedy `\d{3,4}` with backtracking into the continuation `k`:
try four digits, and on failure of the rest of the pattern, three. -/
def tryPlateThen (r : List Char) (k : List Char → Option (List Char)) : Option (List Char) :=
  let attempt4 :=
    if (r.take 4).length = 4 ∧ (r.take 4).all isDigitC then k (r.drop 4) else none
  match attempt4 with
  | some x => some x
  | none =>
    if (r.take 3).length = 3 ∧ (r.take 3).all isDigitC then k (r.drop 3) else none

/-- Match `_` followed by exactly `n` digits, returning them and the rest. -/
def underscoreDigits (n : Nat) (r : List Char) : Option (List Char × List Char) :=
  match r with
  | c :: rest =>
    if c = '_' ∧ (rest.take n).length = n ∧ (rest.take n).all isDigitC then
      some (rest.take n, rest.drop n)
    else none
  | [] => none

/-- Match `METHYLATION_\d{3,4}_(\d{6})` at the current position. -/
def matchDateAt (l : List Char) : Option (List Char) :=
  if methSig.isPrefixOf l then
    tryPlateThen (l.drop 12) (fun r => (underscoreDigits 6 r).map (fun p => p.1))
  else none

/-- Match `METHYLATION_\d{3,4}_\d{6}_([A-Z]+)` at the current position;
the greedy `[A-Z]+` captures the maximal run of upper-case letters. -/
def matchInitialsAt (l : List Char) : Option (List Char) :=
  if methSig.isPrefixOf l then
    tryPlateThen (l.drop 12) (fun r =>
      match underscoreDigits 6 r with
      | some p =>
        match p.2 with
        | c :: rest2 =>
          if c = '_' then
            let u := rest2.takeWhile isUpperAZ
            if u.isEmpty then none else some u
          else none
        | [] => none
      | none => none)
  else none

/-- Embedding of `report_generator.extract_plate_info`
(`report_generator.py:13-38`): three independent regex searches with the
placeholder fallbacks `'XXXX'`, `'MMDDYY'`, `'XX'`. -/
def extract_plate_info (filename : String) : String × String × String :=
  let l := filename.data
  let plate : String := match searchM matchPlateAt l with | some d => ⟨d⟩ | none => "XXXX"
  let date : String := match searchM matchDateAt l with | some d => ⟨d⟩ | none => "MMDDYY"
  let inits : String := match searchM matchInitialsAt l with | some u => ⟨u⟩ | none => "XX"
  (plate, date, inits)

example :
    extract_plate_info "BWS_QS6_METHYLATION_2221_111125_AN_20251111_115944_ICR1_Results.csv" =
      ("2221", "111125", "AN") := by decide
example :
    extract_plate_info "RSS_QS6_METHYLATION_562_112625_AN_x.csv" = ("562", "112625", "AN") := by
  decide
example : extract_plate_info "nothing_here" = ("XXXX", "MMDDYY", "XX") := by decide
example : extract_plate_info "METHYLATION_12_METHYLATION_3456_110725_ABC" =
    ("3456", "110725", "ABC") := by decide
example : extract_plate_info "METHYLATION_99999_110725_AN" = ("9999", "MMDDYY", "XX") := by decide
example : get_all_samples [⟨"b", "t", "1"⟩, ⟨"a", "t", "2"⟩] [⟨"b", "u", "3"⟩] = ["a", "b"] := by
  decide
example : extract_sample_data [⟨"X", "ICR1_M", "20.1"⟩, ⟨"X", "ICR1_UM", "Undetermined"⟩,
    ⟨"Y", "ICR1_M", "19.0"⟩] [] "X" =
    { sample_name := "X", icr1_m := [some (.finite ⟨201, 10⟩)],
      icr1_um := [some (.finite ⟨40, 1⟩)], icr2_m := [], icr2_um := [] } := by decide
example : extract_sample_data [⟨"X", "T1_M", "20.1"⟩] [] "X" =
    { sample_name := "X", icr1_m := [], icr1_um := [], icr2_m := [], icr2_um := [] } := by decide

/-! ### Characterisation of the extraction loops -/

lemma extractLoop_foldl (mTag umTag s : String) (hne : mTag ≠ umTag) (rows : List QRow) :
    ∀ (a b : List (Option PyFloat)),
      rows.foldl
        (fun acc r =>
          if r.Sample = s then
            if r.Target = mTag then (acc.1 ++ [safe_float_convert r.Cq], acc.2)
            else if r.Target = umTag then (acc.1, acc.2 ++ [safe_float_convert r.Cq])
            else acc
          else acc) (a, b) =
      (a ++ (rows.filter (fun r => r.Sample == s && r.Target == mTag)).map
          (fun r => safe_float_convert r.Cq),
       b ++ (rows.filter (fun r => r.Sample == s && r.Target == umTag)).map
          (fun r => safe_float_convert r.Cq)) := by
  induction rows with
  | nil => intro a b; simp
  | cons r rows ih =>
    intro a b
    simp only [List.foldl_cons, List.filter_cons]
    by_cases hs : r.Sample = s
    · by_cases hm : r.Target = mTag
      · have hu : (r.Target == umTag) = false := by
          simp only [beq_eq_false_iff_ne]; rw [hm]; exact hne
        simp [hs, hm, hu, ih, hne, List.append_assoc]
      · by_cases hu : r.Target = umTag
        · simp [hs, hm, hu, ih, hne, Ne.symm hne, List.append_assoc]
        · simp [hs, hm, hu, ih]
    · simp [hs, ih]

lemma extractLoop_eq (mTag umTag s : String) (hne : mTag ≠ umTag) (rows : List QRow) :
    extractLoop mTag umTag s rows =
      ((rows.filter (fun r => r.Sample == s && r.Target == mTag)).map
          (fun r => safe_float_convert r.Cq),
       (rows.filter (fun r => r.Sample == s && r.Target == umTag)).map
          (fun r => safe_float_convert r.Cq)) := by
  simpa using extractLoop_foldl mTag umTag s hne rows [] []

lemma extract_sample_data_eq (d1 d2 : List QRow) (s : String) :
    extract_sample_data d1 d2 s =
      { sample_name := s
        icr1_m := (d1.filter (fun r => r.Sample == s && r.Target == "ICR1_M")).map
          (fun r => safe_float_convert r.Cq)
        icr1_um := (d1.filter (fun r => r.Sample == s && r.Target == "ICR1_UM")).map
          (fun r => safe_float_convert r.Cq)
        icr2_m := (d2.filter (fun r => r.Sample == s && r.Target == "ICR2_M")).map
          (fun r => safe_float_convert r.Cq)
        icr2_um := (d2.filter (fun r => r.Sample == s && r.Target == "ICR2_UM")).map
          (fun r => safe_float_convert r.Cq) } := by
  unfold extract_sample_data
  rw [extractLoop_eq _ _ _ (by decide) d1, extractLoop_eq _ _ _ (by decide) d2]

/-- Claim C1 (code bug): the source `extract_sample_data` coincides with the
spec's five-parameter version only at the hard-wired tags `ICR1`/`ICR2`; at
the spec's own example tag `T1` it ignores a matching `T1_M` row that the
spec function extracts.  (The callers in `report_generator.py:521-539` pass
five arguments to the three-parameter source function, a `TypeError`.) -/
theorem C1_extract_sample_data_fixed_tags :
    (∀ (d1 d2 : List QRow) (s : String),
      extract_sample_data d1 d2 s = extractSampleDataSpec d1 d2 s "ICR1" "ICR2")
    ∧ (extract_sample_data [⟨"X", "T1_M", "20.1"⟩] [] "X").icr1_m = []
    ∧ (extractSampleDataSpec [⟨"X", "T1_M", "20.1"⟩] [] "X" "T1" "T2").icr1_m =
        [some (.finite ⟨201, 10⟩)]
    ∧ extract_sample_data [⟨"X", "T1_M", "20.1"⟩] [] "X" ≠
        extractSampleDataSpec [⟨"X", "T1_M", "20.1"⟩] [] "X" "T1" "T2" := by
  refine ⟨fun d1 d2 s => rfl, by decide, by decide, by decide⟩

/-- Claim C6: a sample id matching no row in either file yields the record
with four empty sequences (and, the embedding being total, no error). -/
theorem C6_extract_sample_data_missing_sample (d1 d2 : List QRow) (s : String)
    (h1 : ∀ r ∈ d1, r.Sample ≠ s) (h2 : ∀ r ∈ d2, r.Sample ≠ s) :
    extract_sample_data d1 d2 s =
      { sample_name := s, icr1_m := [], icr1_um := [], icr2_m := [], icr2_um := [] } := by
  rw [extract_sample_data_eq]
  have e1 : ∀ (t : String), d1.filter (fun r => r.Sample == s && r.Target == t) = [] :=
    fun t => List.filter_eq_nil_iff.mpr fun r hr => by simp [h1 r hr]
  have e2 : ∀ (t : String), d2.filter (fun r => r.Sample == s && r.Target == t) = [] :=
    fun t => List.filter_eq_nil_iff.mpr fun r hr => by simp [h2 r hr]
  simp [e1, e2]

theorem C6_witness :
    extract_sample_data [⟨"A", "ICR1_M", "20"⟩] [⟨"B", "ICR2_UM", "21"⟩] "Z" =
      { sample_name := "Z", icr1_m := [], icr1_um := [], icr2_m := [], icr2_um := [] } :=
  C6_extract_sample_data_missing_sample _ _ "Z" (by decide) (by decide)

/-- Claim C7: each of the four sequences is exactly the per-row normalised
`Cq` of the matching rows, in source order (the `filter`/`map`
characterisation), and its length is the number of matching rows. -/
theorem C7_extract_sample_data_order (d1 d2 : List QRow) (s : String) :
    (extract_sample_data d1 d2 s).icr1_m =
        (d1.filter (fun r => r.Sample == s && r.Target == "ICR1_M")).map
          (fun r => safe_float_convert r.Cq)
    ∧ (extract_sample_data d1 d2 s).icr1_um =
        (d1.filter (fun r => r.Sample == s && r.Target == "ICR1_UM")).map
          (fun r => safe_float_convert r.Cq)
    ∧ (extract_sample_data d1 d2 s).icr2_m =
        (d2.filter (fun r => r.Sample == s && r.Target == "ICR2_M")).map
          (fun r => safe_float_convert r.Cq)
    ∧ (extract_sample_data d1 d2 s).icr2_um =
        (d2.filter (fun r => r.Sample == s && r.Target == "ICR2_UM")).map
          (fun r => safe_float_convert r.Cq)
    ∧ (extract_sample_data d1 d2 s).icr1_m.length =
        d1.countP (fun r => r.Sample == s && r.Target == "ICR1_M")
    ∧ (extract_sample_data d1 d2 s).icr1_um.length =
        d1.countP (fun r => r.Sample == s && r.Target == "ICR1_UM")
    ∧ (extract_sample_data d1 d2 s).icr2_m.length =
        d2.countP (fun r => r.Sample == s && r.Target == "ICR2_M")
    ∧ (extract_sample_data d1 d2 s).icr2_um.length =
        d2.countP (fun r => r.Sample == s && r.Target == "ICR2_UM") := by
  rw [extract_sample_data_eq]
  refine ⟨rfl, rfl, rfl, rfl, ?_, ?_, ?_, ?_⟩ <;>
    simp [List.countP_eq_length_filter]

/-! ### The string order is total, transitive and antisymmetric -/

lemma charEq_of_toNat (a b : Char) (h : a.toNat = b.toNat) : a = b :=
  Char.ext (UInt32.toNat.inj h)

lemma listLeB_total : ∀ (a b : List Char), listLeB a b = true ∨ listLeB b a = true
  | [], _ => .inl rfl
  | _ :: _, [] => .inr rfl
  | a :: as, b :: bs => by
    simp only [listLeB]
    rcases Nat.lt_trichotomy a.toNat b.toNat with h | h | h
    · left; simp [h]
    · simp only [h, Nat.lt_irrefl, if_false]
      exact listLeB_total as bs
    · right; simp [h]

lemma listLeB_trans :
    ∀ (a b c : List Char), listLeB a b = true → listLeB b c = true → listLeB a c = true
  | [], _, _, _, _ => rfl
  | _ :: _, [], _, h1, _ => by simp [listLeB] at h1
  | _ :: _, _ :: _, [], _, h2 => by simp [listLeB] at h2
  | a :: as, b :: bs, c :: cs, h1, h2 => by
    simp only [listLeB] at h1 h2 ⊢
    split_ifs at h1 h2 ⊢ <;>
      first
        | rfl
        | omega
        | simp at h1
        | simp at h2
        | exact listLeB_trans as bs cs h1 h2

lemma listLeB_antisymm :
    ∀ (a b : List Char), listLeB a b = true → listLeB b a = true → a = b
  | [], [], _, _ => rfl
  | [], _ :: _, _, h2 => by simp [listLeB] at h2
  | _ :: _, [], h1, _ => by simp [listLeB] at h1
  | a :: as, b :: bs, h1, h2 => by
    simp only [listLeB] at h1 h2
    split_ifs at h1 h2 <;>
      first
        | omega
        | simp at h1
        | simp at h2
        | exact congrArg₂ List.cons (charEq_of_toNat a b (by omega))
            (listLeB_antisymm as bs h1 h2)

instance : IsTotal String strLeR := ⟨fun s t => listLeB_total s.data t.data⟩

instance : IsTrans String strLeR :=
  ⟨fun s t u h1 h2 => listLeB_trans s.data t.data u.data h1 h2⟩

instance : IsAntisymm String strLeR :=
  ⟨fun s t h1 h2 => String.ext (listLeB_antisymm s.data t.data h1 h2)⟩

/-- Claim C5: `get_all_samples` is invariant under permutation of either
input, and its output is the sorted deduplicated union of the `Sample`
fields of both inputs. -/
theorem C5_get_all_samples_sorted_union (d1 d2 d1' d2' : List QRow)
    (h1 : d1.Perm d1') (h2 : d2.Perm d2') :
    get_all_samples d1 d2 = get_all_samples d1' d2'
    ∧ (get_all_samples d1 d2).Sorted strLeR
    ∧ (get_all_samples d1 d2).Nodup
    ∧ ∀ x, x ∈ get_all_samples d1 d2 ↔
        (∃ r ∈ d1, r.Sample = x) ∨ (∃ r ∈ d2, r.Sample = x) := by
  refine ⟨?_, List.sorted_insertionSort strLeR _, ?_, ?_⟩
  · refine List.eq_of_perm_of_sorted ?_
      (List.sorted_insertionSort strLeR _) (List.sorted_insertionSort strLeR _)
    refine (List.perm_insertionSort strLeR _).trans
      (List.Perm.trans ?_ (List.perm_insertionSort strLeR _).symm)
    exact ((h1.map QRow.Sample).append (h2.map QRow.Sample)).dedup
  · exact ((List.perm_insertionSort strLeR _).nodup_iff).mpr (List.nodup_dedup _)
  · intro x
    simp [get_all_samples, (List.perm_insertionSort strLeR _).mem_iff, List.mem_dedup,
      List.mem_append, List.mem_map]

theorem C5_witness :
    (get_all_samples [⟨"b", "t", "1"⟩, ⟨"a", "t", "2"⟩] [⟨"c", "u", "3"⟩]
      = get_all_samples [⟨"a", "t", "2"⟩, ⟨"b", "t", "1"⟩] [⟨"c", "u", "3"⟩])
    ∧ get_all_samples [⟨"b", "t", "1"⟩, ⟨"a", "t", "2"⟩] [⟨"c", "u", "3"⟩] = ["a", "b", "c"] :=
  ⟨(C5_get_all_samples_sorted_union _ _ _ _ (List.Perm.swap _ _ _) (List.Perm.refl _)).1,
    by decide⟩

/-! ### Export-parser lemmas -/

lemma findHeaderSuffix_eq_none_iff (lines : List String) :
    findHeaderSuffix lines = none ↔ ∀ l ∈ lines, headerSigL.isPrefixOf l.data = false := by
  induction lines with
  | nil => simp [findHeaderSuffix]
  | cons l rest ih =>
    cases hb : headerSigL.isPrefixOf l.data <;> simp [findHeaderSuffix, hb, ih]

lemma findHeaderSuffix_append (pre rest : List String)
    (hpre : ∀ l ∈ pre, headerSigL.isPrefixOf l.data = false) :
    findHeaderSuffix (pre ++ rest) = findHeaderSuffix rest := by
  induction pre with
  | nil => rfl
  | cons l pre ih =>
    simp only [List.cons_append, findHeaderSuffix, hpre l (List.mem_cons_self l pre)]
    simp only [Bool.false_eq_true, if_false]
    exact ih fun l hl => hpre l (List.mem_cons_of_mem _ hl)

lemma cleanRow_error (fns r : List String) (e : PyErr) (h : cleanRow fns r = .error e) :
    e = .attributeError := by
  unfold cleanRow at h
  split at h
  · exact absurd h (by simp)
  · injection h with h2; exact h2.symm

lemma mapCleanRows_error (fns : List String) :
    ∀ (rs : List (List String)) (e : PyErr),
      mapCleanRows fns rs = .error e → e = .attributeError
  | [], e, h => by simp [mapCleanRows] at h
  | r :: rest, e, h => by
    unfold mapCleanRows at h
    rcases hc : cleanRow fns r with e' | row
    · rw [hc] at h; injection h with h2; exact (cleanRow_error fns r e' hc) ▸ h2.symm
    · rw [hc] at h
      rcases hm : mapCleanRows fns rest with e'' | rows
      · rw [hm] at h; injection h with h2
        exact (mapCleanRows_error fns rest e'' hm) ▸ h2.symm
      · rw [hm] at h; exact absurd h (by simp)

lemma readRowsFrom_ne_headerNotFound (l : List String) (fp : String) :
    readRowsFrom l ≠ .error (.headerNotFound fp) := by
  cases l with
  | nil => simp [readRowsFrom]
  | cons header rest =>
    intro h
    have := mapCleanRows_error (splitCSVLine header) _ _ h
    simp at this

lemma readRowsFrom_cons (header : String) (rest : List String) :
    readRowsFrom (header :: rest) =
      mapCleanRows (splitCSVLine header)
        ((rest.map splitCSVLine).filter (fun r => !r.isEmpty)) := rfl

lemma parse_qpcr_csv_split (fp : String) (pre : List String) (header : String)
    (rest : List String)
    (hpre : ∀ l ∈ pre, headerSigL.isPrefixOf l.data = false)
    (hh : headerSigL.isPrefixOf header.data = true) :
    parse_qpcr_csv fp (pre ++ header :: rest) = readRowsFrom (header :: rest) := by
  unfold parse_qpcr_csv
  rw [findHeaderSuffix_append pre _ hpre]
  simp [findHeaderSuffix, hh]

lemma dictUpsert_not_mem (d : List (String × String)) (k v : String)
    (h : k ∉ d.map Prod.fst) : dictUpsert d k v = d ++ [(k, v)] := by
  induction d with
  | nil => rfl
  | cons p rest ih =>
    obtain ⟨k', v'⟩ := p
    simp only [List.map_cons, List.mem_cons, not_or] at h
    have hne : k' ≠ k := fun he => h.1 he.symm
    simp only [dictUpsert, if_neg hne, List.cons_append]
    rw [ih h.2]

lemma foldl_upsert_nodup :
    ∀ (ps d : List (String × String)), (d.map Prod.fst ++ ps.map Prod.fst).Nodup →
      ps.foldl (fun d p => dictUpsert d p.1 p.2) d = d ++ ps
  | [], d, _ => by simp
  | (k, v) :: ps, d, h => by
    simp only [List.map_cons] at h
    simp only [List.foldl_cons]
    have hk : k ∉ d.map Prod.fst := by
      intro hmem
      exact (List.nodup_append.mp h).2.2 hmem (List.mem_cons_self k _)
    rw [dictUpsert_not_mem d k v hk]
    have h' : ((d ++ [(k, v)]).map Prod.fst ++ ps.map Prod.fst).Nodup := by
      simpa [List.map_append, List.append_assoc, List.singleton_append] using h
    rw [foldl_upsert_nodup ps (d ++ [(k, v)]) h']
    simp

/-- Building a dict from pairs with pairwise-distinct keys keeps every pair
in order — no collapsing happens. -/
lemma dictOfPairs_nodup (ps : List (String × String)) (h : (ps.map Prod.fst).Nodup) :
    dictOfPairs ps = ps := by
  have := foldl_upsert_nodup ps [] (by simpa using h)
  simpa [dictOfPairs] using this

/-- On a header whose stripped field names are pairwise distinct (every real
export header is), a matching row cleans to exactly the stripped
name / stripped value pairs, in field order. -/
lemma cleanRow_ok (fns : List String) (hnodup : (fns.map stripQuotes).Nodup)
    (row : List String) (hlen : row.length = fns.length) :
    cleanRow fns row = .ok (List.zip (fns.map stripQuotes) (row.map stripQuotes)) := by
  unfold cleanRow
  rw [if_pos hlen]
  have hraw : fns.Nodup := List.Nodup.of_map stripQuotes hnodup
  have h1 : dictOfPairs (List.zip fns row) = List.zip fns row :=
    dictOfPairs_nodup _ (by rw [List.map_fst_zip fns row (by omega)]; exact hraw)
  rw [h1]
  have hmap : (List.zip fns row).map (fun p => (stripQuotes p.1, stripQuotes p.2)) =
      List.zip (fns.map stripQuotes) (row.map stripQuotes) :=
    (List.zip_map stripQuotes stripQuotes fns row).symm
  rw [hmap]
  rw [dictOfPairs_nodup _ (by
    rw [List.map_fst_zip _ _ (by simp [hlen])]
    exact hnodup)]

lemma mapCleanRows_all_ok (fns : List String) (hnodup : (fns.map stripQuotes).Nodup)
    (rs : List (List String)) (h : ∀ r ∈ rs, r.length = fns.length) :
    mapCleanRows fns rs =
      .ok (rs.map (fun r => List.zip (fns.map stripQuotes) (r.map stripQuotes))) := by
  induction rs with
  | nil => rfl
  | cons r rest ih =>
    unfold mapCleanRows
    rw [cleanRow_ok fns hnodup r (h r (List.mem_cons_self r rest))]
    rw [ih fun r hr => h r (List.mem_cons_of_mem _ hr)]
    simp

lemma mapCleanRows_error_of_mem (fns : List String) (rs : List (List String))
    (h : ∃ r ∈ rs, r.length ≠ fns.length) :
    mapCleanRows fns rs = .error .attributeError := by
  induction rs with
  | nil => simp at h
  | cons r rest ih =>
    unfold mapCleanRows
    rcases hcr : cleanRow fns r with e | row
    · have he := cleanRow_error fns r e hcr
      subst he
      rfl
    · rcases h with ⟨w, hw, hlen⟩
      rcases List.mem_cons.mp hw with rfl | hw2
      · exfalso
        unfold cleanRow at hcr
        rw [if_neg hlen] at hcr
        exact Except.noConfusion hcr
      · rw [ih ⟨w, hw2, hlen⟩]

/-- Claim C3: `parse_qpcr_csv` fails with `HeaderNotFound` (carrying the file
identity) exactly when no line begins with the header signature; when some
line does, parsing proceeds from the first such line, all earlier lines
being discarded. -/
theorem C3_parse_qpcr_csv_header (fp : String) (lines : List String) :
    (parse_qpcr_csv fp lines = .error (.headerNotFound fp) ↔
      ∀ l ∈ lines, headerSigL.isPrefixOf l.data = false)
    ∧ (∀ (pre : List String) (header : String) (rest : List String),
        lines = pre ++ header :: rest →
        (∀ l ∈ pre, headerSigL.isPrefixOf l.data = false) →
        headerSigL.isPrefixOf header.data = true →
        parse_qpcr_csv fp lines = readRowsFrom (header :: rest)) := by
  constructor
  · constructor
    · intro h
      rcases hfind : findHeaderSuffix lines with _ | suf
      · exact (findHeaderSuffix_eq_none_iff lines).mp hfind
      · unfold parse_qpcr_csv at h
        rw [hfind] at h
        exact absurd h (readRowsFrom_ne_headerNotFound suf fp)
    · intro hall
      unfold parse_qpcr_csv
      rw [(findHeaderSuffix_eq_none_iff lines).mpr hall]
  · intro pre header rest hlines hpre hh
    subst hlines
    exact parse_qpcr_csv_split fp pre header rest hpre hh

theorem C3_witness :
    parse_qpcr_csv "a.csv" ["meta", "\"Well\",\"Well Position\"", "\"1\",\"A1\""] =
      readRowsFrom ["\"Well\",\"Well Position\"", "\"1\",\"A1\""]
    ∧ parse_qpcr_csv "b.csv" ["no header at all"] = .error (.headerNotFound "b.csv") :=
  ⟨(C3_parse_qpcr_csv_header "a.csv" _).2 ["meta"] _ _ rfl (by decide) (by decide),
    ((C3_parse_qpcr_csv_header "b.csv" _).1).mpr (by decide)⟩

/-- Claim C4: for a file with a header line followed by data lines — lines
that are complete single-line records parsing to the header's field count —
`parse_qpcr_csv` returns one `RawRow` per data line, keyed by the header's
field names, with enclosing quotes stripped from every key and value.  The
header is required to be a complete line with pairwise-distinct stripped
field names (every real export header is): on duplicate names the Python
dict would collapse pairs, and an unterminated quote would make the real
reader consume following lines into one field. -/
theorem C4_parse_qpcr_csv_rows (fp : String) (pre : List String) (header : String)
    (rest : List String)
    (hpre : ∀ l ∈ pre, headerSigL.isPrefixOf l.data = false)
    (hh : headerSigL.isPrefixOf header.data = true)
    (_hhc : lineComplete header = true)
    (hnodup : ((splitCSVLine header).map stripQuotes).Nodup)
    (hdata : ∀ l ∈ rest,
      (splitCSVLine l).length = (splitCSVLine header).length ∧ splitCSVLine l ≠ [] ∧
        lineComplete l = true) :
    parse_qpcr_csv fp (pre ++ header :: rest) =
      .ok (rest.map (fun l =>
        List.zip ((splitCSVLine header).map stripQuotes) ((splitCSVLine l).map stripQuotes)))
    ∧ ∀ rows, parse_qpcr_csv fp (pre ++ header :: rest) = .ok rows →
        rows.length = rest.length := by
  have hmain : parse_qpcr_csv fp (pre ++ header :: rest) =
      .ok (rest.map (fun l =>
        List.zip ((splitCSVLine header).map stripQuotes)
          ((splitCSVLine l).map stripQuotes))) := by
    rw [parse_qpcr_csv_split fp pre header rest hpre hh, readRowsFrom_cons]
    rw [show (rest.map splitCSVLine).filter (fun r => !r.isEmpty) = rest.map splitCSVLine from
      List.filter_eq_self.mpr fun r hr => by
        rcases List.mem_map.mp hr with ⟨l, hl, rfl⟩
        simpa using (hdata l hl).2.1]
    rw [mapCleanRows_all_ok _ hnodup _ fun r hr => by
      rcases List.mem_map.mp hr with ⟨l, hl, rfl⟩
      simpa using (hdata l hl).1]
    simp [List.map_map, Function.comp]
  refine ⟨hmain, fun rows h => ?_⟩
  rw [hmain] at h
  injection h with h2
  rw [← h2, List.length_map]

theorem C4_witness :
    parse_qpcr_csv "f.csv"
      (["m1", "m2", "m3", "m4", "m5"] ++ "\"Well\",\"Well Position\"" ::
        ["\"1\",\"A1\"", "\"2\",\"A2\"", "\"3\",\"A3\""]) =
      .ok [[("Well", "1"), ("Well Position", "A1")],
           [("Well", "2"), ("Well Position", "A2")],
           [("Well", "3"), ("Well Position", "A3")]] := by
  rw [(C4_parse_qpcr_csv_rows "f.csv" ["m1", "m2", "m3", "m4", "m5"]
    "\"Well\",\"Well Position\"" ["\"1\",\"A1\"", "\"2\",\"A2\"", "\"3\",\"A3\""]
    (by decide) (by decide) (by decide) (by decide) (by decide)).1]
  decide

/-- Claim C8 as stated: a blank line or a line of non-matching field count
acts as end-of-data, i.e. only the longest prefix of well-formed data lines
is parsed. -/
def C8Claim : Prop :=
  ∀ (fp : String) (pre : List String) (header : String) (rest : List String),
    (∀ l ∈ pre, headerSigL.isPrefixOf l.data = false) →
    headerSigL.isPrefixOf header.data = true →
    parse_qpcr_csv fp (pre ++ header :: rest) =
      .ok ((rest.takeWhile (fun l => !(splitCSVLine l).isEmpty &&
            (splitCSVLine l).length == (splitCSVLine header).length)).map
        (fun l =>
          List.zip ((splitCSVLine header).map stripQuotes) ((splitCSVLine l).map stripQuotes)))

/-- Claim C8 is false of the code: a blank line between two data lines is
skipped, not treated as end-of-data — the parser still returns the row after
the blank. -/
theorem C8_counterexample : ¬ C8Claim := fun h => by
  have hc := h "f.csv" [] "\"Well\",\"Well Position\"" ["\"1\",\"A1\"", "", "\"2\",\"A2\""]
    (by decide) (by decide)
  exact absurd hc (by decide)

/-- Claim C8 amended: among complete single-line records, blank lines
anywhere are skipped (hence blank trailing lines yield no spurious empty
rows), and a non-blank line whose field count differs from the header's
makes the whole parse fail with `AttributeError` rather than being emitted
or ending the data.  The completeness hypotheses keep the statement on the
domain where the per-line model coincides with the real stream reader (an
unterminated quote would make the real reader merge following lines). -/
theorem C8_blank_skipped_and_count_mismatch_fatal :
    (∀ (fp : String) (pre : List String) (header : String) (rest1 rest2 : List String),
      (∀ l ∈ pre, headerSigL.isPrefixOf l.data = false) →
      headerSigL.isPrefixOf header.data = true →
      lineComplete header = true →
      (∀ l ∈ rest1, lineComplete l = true) →
      parse_qpcr_csv fp (pre ++ header :: (rest1 ++ "" :: rest2)) =
        parse_qpcr_csv fp (pre ++ header :: (rest1 ++ rest2)))
    ∧ (∀ (fp : String) (pre : List String) (header : String) (rest1 : List String)
        (bad : String) (rest2 : List String),
      (∀ l ∈ pre, headerSigL.isPrefixOf l.data = false) →
      headerSigL.isPrefixOf header.data = true →
      lineComplete header = true →
      (∀ l ∈ rest1, lineComplete l = true) →
      lineComplete bad = true →
      splitCSVLine bad ≠ [] →
      (splitCSVLine bad).length ≠ (splitCSVLine header).length →
      parse_qpcr_csv fp (pre ++ header :: (rest1 ++ bad :: rest2)) =
        .error .attributeError) := by
  constructor
  · intro fp pre header rest1 rest2 hpre hh _ _
    rw [parse_qpcr_csv_split fp pre header _ hpre hh,
      parse_qpcr_csv_split fp pre header _ hpre hh, readRowsFrom_cons, readRowsFrom_cons]
    simp [List.map_append, List.filter_append, show splitCSVLine "" = [] from rfl]
  · intro fp pre header rest1 bad rest2 hpre hh _ _ _ hbad hlen
    rw [parse_qpcr_csv_split fp pre header _ hpre hh, readRowsFrom_cons]
    apply mapCleanRows_error_of_mem
    refine ⟨splitCSVLine bad, ?_, hlen⟩
    rw [List.mem_filter]
    refine ⟨List.mem_map_of_mem splitCSVLine ?_, by simpa using hbad⟩
    simp

theorem C8_witness :
    parse_qpcr_csv "f.csv"
        ("\"Well\",\"Well Position\"" :: (["\"1\",\"A1\""] ++ "" :: ["\"2\",\"A2\""])) =
      parse_qpcr_csv "f.csv"
        ("\"Well\",\"Well Position\"" :: (["\"1\",\"A1\""] ++ ["\"2\",\"A2\""]))
    ∧ parse_qpcr_csv "f.csv"
        ("\"Well\",\"Well Position\"" :: ([] ++ "\"1\"" :: [])) = .error .attributeError :=
  ⟨(C8_blank_skipped_and_count_mismatch_fatal).1 "f.csv" [] _ ["\"1\",\"A1\""] ["\"2\",\"A2\""]
      (by decide) (by decide) (by decide) (by decide),
    (C8_blank_skipped_and_count_mismatch_fatal).2 "f.csv" [] _ [] "\"1\"" []
      (by decide) (by decide) (by decide) (by decide) (by decide) (by decide) (by decide)⟩

/-! ### Regex-search lemmas for `extract_plate_info` -/

lemma searchM_skip (f : List Char → Option (List Char)) :
    ∀ (pre l : List Char), (∀ j, j < pre.length → f ((pre ++ l).drop j) = none) →
      searchM f (pre ++ l) = searchM f l
  | [], _, _ => rfl
  | c :: pre, l, h => by
    have h0 : f (c :: (pre ++ l)) = none := by
      have := h 0 (by simp)
      simpa using this
    show (match f (c :: (pre ++ l)) with
          | some r => some r
          | none => searchM f (pre ++ l)) = searchM f l
    rw [h0]
    exact searchM_skip f pre l fun j hj => by
      have := h (j + 1) (by simpa using hj)
      simpa [List.cons_append, List.drop_succ_cons] using this

lemma searchM_eq_some (f : List Char → Option (List Char)) (l r : List Char)
    (h : f l = some r) : searchM f l = some r := by
  cases l with
  | nil => exact h
  | cons c t => simp only [searchM, h]

lemma searchM_eq_none (f : List Char → Option (List Char)) :
    ∀ (l : List Char), (∀ j, f (l.drop j) = none) → searchM f l = none
  | [], h => h 0
  | c :: t, h => by
    have h0 := h 0
    simp only [List.drop_zero] at h0
    simp only [searchM, h0]
    exact searchM_eq_none f t fun j => by simpa using h (j + 1)

lemma all_takeWhile_append {p : Char → Bool} :
    ∀ (l r : List Char), l.all p = true → (l ++ r).takeWhile p = l ++ r.takeWhile p
  | [], _, _ => rfl
  | c :: l, r, h => by
    simp only [List.all_cons, Bool.and_eq_true] at h
    simp [List.takeWhile_cons, h.1, all_takeWhile_append l r h.2]

lemma takeWhile_nil_of_head (p : Char → Bool) (c : Char) (t : List Char) (h : p c = false) :
    (c :: t).takeWhile p = [] := by simp [List.takeWhile_cons, h]

lemma matchPlateAt_not_sig (l : List Char) (h : methSig.isPrefixOf l = false) :
    matchPlateAt l = none := by simp [matchPlateAt, h]

lemma matchDateAt_not_sig (l : List Char) (h : methSig.isPrefixOf l = false) :
    matchDateAt l = none := by simp [matchDateAt, h]

lemma matchInitialsAt_not_sig (l : List Char) (h : methSig.isPrefixOf l = false) :
    matchInitialsAt l = none := by simp [matchInitialsAt, h]

lemma isPrefixOf_append_self : ∀ (a x : List Char), a.isPrefixOf (a ++ x) = true
  | [], _ => by simp [List.isPrefixOf]
  | c :: a, x => by simp [List.isPrefixOf, isPrefixOf_append_self a x]

lemma methSig_isPrefixOf_append (x : List Char) : methSig.isPrefixOf (methSig ++ x) = true :=
  isPrefixOf_append_self methSig x

lemma drop12_methSig (x : List Char) : (methSig ++ x).drop 12 = x := by
  have h : (12 : ℕ) = methSig.length := by decide
  rw [h, List.drop_left]

lemma take_exact (l x : List Char) (n : ℕ) (h : l.length = n) : (l ++ x).take n = l := by
  rw [← h, List.take_left]

lemma drop_exact (l x : List Char) (n : ℕ) (h : l.length = n) : (l ++ x).drop n = x := by
  rw [← h, List.drop_left]

lemma take_plate3 (plate : List Char) (c : Char) (t : List Char) (h : plate.length = 3) :
    (plate ++ c :: t).take 4 = plate ++ [c] := by
  rw [List.take_append_eq_append_take, List.take_of_length_le (by omega), h]
  rfl

lemma digit_ne_underscore (c : Char) (h : isDigitC c = true) : c ≠ '_' := by
  intro he
  rw [he] at h
  exact absurd h (by decide)

lemma matchPlateAt_at (plate tail : List Char) (hall : plate.all isDigitC = true)
    (hlen : plate.length = 3 ∨ plate.length = 4) :
    matchPlateAt (methSig ++ (plate ++ '_' :: tail)) = some plate := by
  unfold matchPlateAt
  rw [methSig_isPrefixOf_append, if_pos rfl, drop12_methSig]
  have hd : ((plate ++ '_' :: tail).take 4).takeWhile isDigitC = plate := by
    rcases hlen with h3 | h4
    · rw [take_plate3 plate '_' tail h3, all_takeWhile_append plate ['_'] hall,
        takeWhile_nil_of_head isDigitC '_' [] (by decide)]
      simp
    · rw [take_exact plate ('_' :: tail) 4 h4]
      have := all_takeWhile_append plate [] hall
      simpa using this
  rw [hd, if_pos (by omega)]

lemma tryPlateThen_at (plate : List Char) (tail : List Char)
    (k : List Char → Option (List Char)) (hall : plate.all isDigitC = true)
    (hlen : plate.length = 3 ∨ plate.length = 4)
    (hk : ∀ (c : Char) (t : List Char), isDigitC c = true → k (c :: t) = none) :
    tryPlateThen (plate ++ '_' :: tail) k = k ('_' :: tail) := by
  unfold tryPlateThen
  rcases hlen with h3 | h4
  · have hc : ¬ (((plate ++ '_' :: tail).take 4).length = 4 ∧
        ((plate ++ '_' :: tail).take 4).all isDigitC = true) := by
      rw [take_plate3 plate '_' tail h3]
      intro hc
      have h2 := hc.2
      simp [List.all_append, isDigitC] at h2
    rw [if_neg hc]
    simp only
    rw [if_pos ⟨by rw [take_exact plate ('_' :: tail) 3 h3, h3], by
      rw [take_exact plate ('_' :: tail) 3 h3]; exact hall⟩]
    rw [drop_exact plate ('_' :: tail) 3 h3]
  · rw [if_pos ⟨by rw [take_exact plate ('_' :: tail) 4 h4, h4], by
      rw [take_exact plate ('_' :: tail) 4 h4]; exact hall⟩]
    rw [drop_exact plate ('_' :: tail) 4 h4]
    cases hkv : k ('_' :: tail) with
    | some r => rfl
    | none =>
      -- greedy 4 digits failed in the continuation; the 3-digit backtrack
      -- leaves the fourth digit in front, on which `k` also fails
      simp only
      have htk : (plate ++ '_' :: tail).take 3 = plate.take 3 := by
        rw [List.take_append_eq_append_take]
        have : 3 - plate.length = 0 := by omega
        rw [this]
        simp
      have hlen3 : (plate.take 3).length = 3 := by
        rw [List.length_take]; omega
      have hall3 : (plate.take 3).all isDigitC = true := by
        rw [List.all_eq_true] at hall ⊢
        exact fun c hc => hall c (List.take_subset 3 plate hc)
      rw [if_pos ⟨htk ▸ hlen3, htk ▸ hall3⟩]
      have hdk : (plate ++ '_' :: tail).drop 3 = plate.drop 3 ++ '_' :: tail := by
        rw [List.drop_append_eq_append_drop]
        have : 3 - plate.length = 0 := by omega
        rw [this]
        simp
      have hlen1 : (plate.drop 3).length = 1 := by rw [List.length_drop, h4]
      rcases List.length_eq_one.mp hlen1 with ⟨c4, hc4⟩
      have hc4d : isDigitC c4 = true := by
        rw [List.all_eq_true] at hall
        exact hall c4 (List.drop_subset 3 plate (hc4 ▸ List.mem_singleton_self c4))
      rw [hdk, hc4]
      simpa using hk c4 ('_' :: tail) hc4d

lemma underscoreDigits_at (date tail : List Char) (hall : date.all isDigitC = true)
    (hlen : date.length = 6) :
    underscoreDigits 6 ('_' :: (date ++ '_' :: tail)) = some (date, '_' :: tail) := by
  have h1 := take_exact date ('_' :: tail) 6 hlen
  have h2 := drop_exact date ('_' :: tail) 6 hlen
  simp [underscoreDigits, h1, h2, hlen, hall]

lemma underscoreDigits_digit_head (n : ℕ) (c : Char) (t : List Char)
    (h : isDigitC c = true) : underscoreDigits n (c :: t) = none := by
  simp [underscoreDigits, digit_ne_underscore c h]

lemma matchDateAt_at (plate date tail : List Char)
    (hp : plate.all isDigitC = true) (hplen : plate.length = 3 ∨ plate.length = 4)
    (hd : date.all isDigitC = true) (hdlen : date.length = 6) :
    matchDateAt (methSig ++ (plate ++ '_' :: (date ++ '_' :: tail))) = some date := by
  unfold matchDateAt
  rw [methSig_isPrefixOf_append, if_pos rfl, drop12_methSig,
    tryPlateThen_at plate _ _ hp hplen
      (fun c t hc => by rw [underscoreDigits_digit_head 6 c t hc]; rfl),
    underscoreDigits_at date tail hd hdlen]
  rfl

/-- Head of the list is not an upper-case letter (or the list is empty) —
the boundary condition stopping the greedy `[A-Z]+`. -/
def headNotUpper : List Char → Bool
  | [] => true
  | c :: _ => !isUpperAZ c

lemma takeWhile_upper_stop (inits rest : List Char) (hall : inits.all isUpperAZ = true)
    (hrest : headNotUpper rest = true) :
    (inits ++ rest).takeWhile isUpperAZ = inits := by
  rw [all_takeWhile_append inits rest hall]
  cases rest with
  | nil => simp
  | cons c t =>
    simp only [headNotUpper, Bool.not_eq_true'] at hrest
    rw [takeWhile_nil_of_head isUpperAZ c t hrest]
    simp

lemma matchInitialsAt_at (plate date inits rest : List Char)
    (hp : plate.all isDigitC = true) (hplen : plate.length = 3 ∨ plate.length = 4)
    (hd : date.all isDigitC = true) (hdlen : date.length = 6)
    (hi : inits.all isUpperAZ = true) (hine : inits ≠ [])
    (hrest : headNotUpper rest = true) :
    matchInitialsAt (methSig ++ (plate ++ '_' :: (date ++ '_' :: (inits ++ rest)))) =
      some inits := by
  unfold matchInitialsAt
  rw [methSig_isPrefixOf_append, if_pos rfl, drop12_methSig,
    tryPlateThen_at plate _ _ hp hplen
      (fun c t hc => by rw [underscoreDigits_digit_head 6 c t hc]),
    underscoreDigits_at date (inits ++ rest) hd hdlen]
  show (if ('_' : Char) = '_' then
      (if ((inits ++ rest).takeWhile isUpperAZ).isEmpty then none
       else some ((inits ++ rest).takeWhile isUpperAZ))
    else none) = some inits
  rw [if_pos rfl, takeWhile_upper_stop inits rest hi hrest,
    if_neg (by simpa using hine)]

/-- Claim C9: `extract_plate_info` is total; on a filename containing
`METHYLATION_<plate>_<date>_<initials>` (with a 3–4 digit plate, 6-digit
date and nonempty upper-case initials) whose earlier positions do not start
another `METHYLATION_`, it extracts the three components; and each
component whose pattern matches nowhere falls back to its placeholder
(`'XXXX'`, `'MMDDYY'`, `'XX'`). -/
theorem C9_extract_plate_info :
    (∀ (fn : String) (pre plate date inits rest : List Char),
      fn.data = pre ++ (methSig ++ (plate ++ '_' :: (date ++ '_' :: (inits ++ rest)))) →
      (∀ j, j < pre.length → methSig.isPrefixOf (fn.data.drop j) = false) →
      plate.all isDigitC = true → (plate.length = 3 ∨ plate.length = 4) →
      date.all isDigitC = true → date.length = 6 →
      inits.all isUpperAZ = true → inits ≠ [] →
      headNotUpper rest = true →
      extract_plate_info fn = (⟨plate⟩, ⟨date⟩, ⟨inits⟩))
    ∧ (∀ fn : String, (∀ j, matchPlateAt (fn.data.drop j) = none) →
        (extract_plate_info fn).1 = "XXXX")
    ∧ (∀ fn : String, (∀ j, matchDateAt (fn.data.drop j) = none) →
        (extract_plate_info fn).2.1 = "MMDDYY")
    ∧ (∀ fn : String, (∀ j, matchInitialsAt (fn.data.drop j) = none) →
        (extract_plate_info fn).2.2 = "XX") := by
  refine ⟨?_, ?_, ?_, ?_⟩
  · intro fn pre plate date inits rest hfn hpre hp hplen hd hdlen hi hine hrest
    have hpre' : ∀ (f : List Char → Option (List Char)),
        (∀ l, methSig.isPrefixOf l = false → f l = none) →
        searchM f fn.data =
          searchM f (methSig ++ (plate ++ '_' :: (date ++ '_' :: (inits ++ rest)))) := by
      intro f hf
      rw [hfn]
      exact searchM_skip f pre _ fun j hj => hf _ (by
        have := hpre j hj
        rw [hfn] at this
        exact this)
    simp only [extract_plate_info]
    rw [hpre' matchPlateAt matchPlateAt_not_sig,
      searchM_eq_some _ _ _ (matchPlateAt_at plate _ hp hplen),
      hpre' matchDateAt matchDateAt_not_sig,
      searchM_eq_some _ _ _ (matchDateAt_at plate date _ hp hplen hd hdlen),
      hpre' matchInitialsAt matchInitialsAt_not_sig,
      searchM_eq_some _ _ _
        (matchInitialsAt_at plate date inits rest hp hplen hd hdlen hi hine hrest)]
  · intro fn h
    simp only [extract_plate_info]
    rw [searchM_eq_none matchPlateAt fn.data h]
  · intro fn h
    simp only [extract_plate_info]
    rw [searchM_eq_none matchDateAt fn.data h]
  · intro fn h
    simp only [extract_plate_info]
    rw [searchM_eq_none matchInitialsAt fn.data h]

theorem C9_witness :
    extract_plate_info "BWS_QS6_METHYLATION_2221_111125_AN_x" = ("2221", "111125", "AN")
    ∧ (extract_plate_info "z").1 = "XXXX"
    ∧ (extract_plate_info "z").2.1 = "MMDDYY"
    ∧ (extract_plate_info "z").2.2 = "XX" := by
  have hz : ∀ (f : List Char → Option (List Char)), f [] = none → f ['z'] = none →
      ∀ j, f (("z" : String).data.drop j) = none := by
    intro f h0 h1 j
    cases j with
    | zero => exact h1
    | succ n =>
      have : (("z" : String).data.drop (n + 1)) = [] := by
        simp [List.drop_succ_cons]
      rw [this]; exact h0
  refine ⟨?_, ?_, ?_, ?_⟩
  · exact C9_extract_plate_info.1 "BWS_QS6_METHYLATION_2221_111125_AN_x"
      "BWS_QS6_".data "2221".data "111125".data "AN".data "_x".data
      (by decide) (by decide) (by decide) (by decide) (by decide) (by decide)
      (by decide) (by decide) (by decide)
  · exact C9_extract_plate_info.2.1 "z" (hz matchPlateAt (by decide) (by decide))
  · exact C9_extract_plate_info.2.2.1 "z" (hz matchDateAt (by decide) (by decide))
  · exact C9_extract_plate_info.2.2.2 "z" (hz matchInitialsAt (by decide) (by decide))

/-! ### Normalizer lemmas (claims C2 and C10) -/

lemma pyFloatParseL_ws (l : List Char) (h : stripWs l = []) : pyFloatParseL l = none := by
  simp [pyFloatParseL, h]

/-- If the stripped input upper-cases to `UNDETERMINED`, Python's `float`
rejects it: such input starts with `u`/`U`, which fits no float form. -/
lemma undet_parse_none (l : List Char)
    (h : (stripWs l).map toUpperC = "UNDETERMINED".data) : pyFloatParseL l = none := by
  cases hsw : stripWs l with
  | nil => exact pyFloatParseL_ws l hsw
  | cons c t =>
    rw [hsw, List.map_cons,
      show ("UNDETERMINED".data) = 'U' :: "NDETERMINED".data from rfl] at h
    injection h with h1 h2
    have hlen : t.length = 11 := by
      have := congrArg List.length h2
      simpa using this
    have hne : ∀ (x : Char), toUpperC x ≠ 'U' → c ≠ x := by
      intro x hx he
      rw [he] at h1
      exact hx h1
    have hnotdash : c ≠ '-' := hne '-' (by decide)
    have hnotplus : c ≠ '+' := hne '+' (by decide)
    have hnotdot : c ≠ '.' := hne '.' (by decide)
    have hnotund : c ≠ '_' := hne '_' (by decide)
    have hnotdigit : isDigitC c = false := by
      cases hd : isDigitC c with
      | false => rfl
      | true =>
        exfalso
        have hd' : 48 ≤ c.toNat ∧ c.toNat ≤ 57 := by
          simpa [isDigitC, Bool.and_eq_true, decide_eq_true_eq] using hd
        unfold toUpperC at h1
        by_cases hab : 97 ≤ c.toNat ∧ c.toNat ≤ 122
        · rw [if_pos hab] at h1
          omega
        · rw [if_neg hab] at h1
          rw [h1] at hd
          exact absurd hd (by decide)
    have hU : isDigitU c = false := by
      simp only [isDigitU, hnotdigit, Bool.false_or, decide_eq_false_iff_not]
      exact fun h95 => hnotund (charEq_of_toNat c '_' (by rw [h95]; decide))
    have hsign : parseSign (c :: t) = (false, c :: t) := by
      simp [parseSign, hnotdash, hnotplus]
    have hA : List.map toLowerC t ≠ ['n', 'f'] := fun he => by
      have := congrArg List.length he
      simp [hlen] at this
    have hB : List.map toLowerC t ≠ ['n', 'f', 'i', 'n', 'i', 't', 'y'] := fun he => by
      have := congrArg List.length he
      simp [hlen] at this
    have hC : List.map toLowerC t ≠ ['a', 'n'] := fun he => by
      have := congrArg List.length he
      simp [hlen] at this
    have hmain : pyFloatParseL l = parseNumber false (c :: t) := by
      simp [pyFloatParseL, hsw, hsign, hA, hB, hC]
    rw [hmain]
    have ht1 : takeDigitU (c :: t) = [] := takeWhile_nil_of_head isDigitU c t hU
    have hr1 : dropDigitU (c :: t) = c :: t := by
      simp [dropDigitU, List.dropWhile_cons, hU]
    simp [parseNumber, ht1, hr1, hnotdot]

lemma sfc_ws (s : String) (h : stripWs s.data = []) : safe_float_convert s = none := by
  by_cases he : s.data = []
  · simp [safe_float_convert, he]
  · have hu : (stripWs s.data).map toUpperC ≠ "UNDETERMINED".data := by
      rw [h]; decide
    simp [safe_float_convert, he, hu, pyFloatParseL_ws s.data h]

lemma sfc_undet (s : String) (h : (stripWs s.data).map toUpperC = "UNDETERMINED".data) :
    safe_float_convert s = some (.finite ⟨40, 1⟩) := by
  have hne : s.data ≠ [] := by
    intro he
    rw [he] at h
    exact absurd h (by decide)
  simp [safe_float_convert, hne, h]

lemma sfc_parse (s : String) (v : PyFloat) (h : pyFloatParse s = some v) :
    safe_float_convert s = some v := by
  unfold pyFloatParse at h
  have hne : s.data ≠ [] := by
    intro he
    rw [he, show pyFloatParseL [] = none from rfl] at h
    exact Option.noConfusion h
  have hu : (stripWs s.data).map toUpperC ≠ "UNDETERMINED".data := by
    intro hu
    rw [undet_parse_none s.data hu] at h
    exact Option.noConfusion h
  simp only [safe_float_convert, hne, hu, if_neg, if_false]
  simpa [hne, hu] using h

lemma sfc_no_parse (s : String) (hne : s.data ≠ [])
    (hu : (stripWs s.data).map toUpperC ≠ "UNDETERMINED".data)
    (hp : pyFloatParse s = none) : safe_float_convert s = none := by
  unfold pyFloatParse at hp
  simp [safe_float_convert, hne, hu, hp]

/-- Formalisation of the claim phrase "parses as a decimal number (possibly
negative or fractional)": an optional sign, then digits, optionally followed
by a dot and further digits — no exponent, no `inf`/`nan`, no padding. -/
def specDecimalLit (s : String) : Option PyFloat :=
  let p := parseSign s.data
  let d1 := p.2.takeWhile isDigitC
  if d1 = [] then none
  else
    match p.2.dropWhile isDigitC with
    | [] => some (mkFinite p.1 d1 [] 0)
    | c :: r2 =>
      if c = '.' ∧ r2 ≠ [] ∧ r2.all isDigitC then some (mkFinite p.1 d1 r2 0) else none

/-- Claim C2 as stated: absent on empty/whitespace-only input; `40.0` when
the input itself (unstripped) case-insensitively equals `undetermined`;
the parsed value on a plain decimal literal; absent on every other
non-empty string. -/
def C2Claim : Prop :=
  ∀ s : String,
    (stripWs s.data = [] → safe_float_convert s = none)
    ∧ (s.data.map toUpperC = "UNDETERMINED".data →
        safe_float_convert s = some (.finite ⟨40, 1⟩))
    ∧ (∀ v, specDecimalLit s = some v → safe_float_convert s = some v)
    ∧ (s.data ≠ [] → stripWs s.data ≠ [] → s.data.map toUpperC ≠ "UNDETERMINED".data →
        specDecimalLit s = none → safe_float_convert s = none)

/-- Claim C2 is false of the code: `" Undetermined"` is none of the three
positive cases (it is padded, so it does not equal the token), yet the
normalizer strips before comparing and returns `40.0`, not absent. -/
theorem C2_counterexample : ¬ C2Claim := fun h => by
  have hb := (h " Undetermined").2.2.2 (by decide) (by decide) (by decide) (by decide)
  exact absurd hb (by decide)

/-- Claim C2 amended: the `undetermined` comparison is made after stripping
surrounding whitespace, and the numeric case follows the full Python
`float` grammar (said grammar subsumes plain decimal literals). -/
theorem C2_normalizer_amended (s : String) :
    (stripWs s.data = [] → safe_float_convert s = none)
    ∧ ((stripWs s.data).map toUpperC = "UNDETERMINED".data →
        safe_float_convert s = some (.finite ⟨40, 1⟩))
    ∧ (∀ v, pyFloatParse s = some v → safe_float_convert s = some v)
    ∧ (s.data ≠ [] → (stripWs s.data).map toUpperC ≠ "UNDETERMINED".data →
        pyFloatParse s = none → safe_float_convert s = none) :=
  ⟨fun h => sfc_ws s h, fun h => sfc_undet s h, fun v hv => sfc_parse s v hv,
    fun hne hu hp => sfc_no_parse s hne hu hp⟩

theorem C2_witness :
    safe_float_convert "23.45" = some (.finite ⟨469, 20⟩)
    ∧ safe_float_convert "abc" = none :=
  ⟨(C2_normalizer_amended "23.45").2.2.1 (.finite ⟨469, 20⟩) (by decide),
    (C2_normalizer_amended "abc").2.2.2 (by decide) (by decide) (by decide)⟩

/-- Claim C10 as stated: the normalizer returns `40.0` *iff* the stripped
input case-insensitively equals `undetermined`, and returns a value on
every string the underlying float parse accepts. -/
def C10Claim : Prop :=
  ∀ s : String,
    (safe_float_convert s = some (.finite ⟨40, 1⟩) ↔
      (stripWs s.data).map toUpperC = "UNDETERMINED".data)
    ∧ (∀ v, pyFloatParse s = some v → safe_float_convert s = some v)

/-- Claim C10's "only if" direction is false of the code: the input `"40"`
makes the normalizer return `40.0` through the numeric parse, without being
the `undetermined` token. -/
theorem C10_counterexample : ¬ C10Claim := fun h => by
  have hb := (h "40").1.mp (by decide)
  exact absurd hb (by decide)

/-- Claim C10 amended: drop the "only if" — the stripped case-insensitive
`undetermined` token maps to `40.0`, and every string accepted by the
underlying float parse maps to its parsed value (hence exponent forms,
padded numbers, `inf` and `nan` are values, not absent). -/
theorem C10_normalizer_amended (s : String) :
    ((stripWs s.data).map toUpperC = "UNDETERMINED".data →
      safe_float_convert s = some (.finite ⟨40, 1⟩))
    ∧ (∀ v, pyFloatParse s = some v → safe_float_convert s = some v) :=
  ⟨fun h => sfc_undet s h, fun v hv => sfc_parse s v hv⟩

theorem C10_witness :
    safe_float_convert "  Undetermined " = some (.finite ⟨40, 1⟩)
    ∧ safe_float_convert " 1e3 " = some (.finite ⟨1000, 1⟩)
    ∧ safe_float_convert "inf" = some (.inf false)
    ∧ safe_float_convert "nan" = some .nan :=
  ⟨(C10_normalizer_amended "  Undetermined ").1 (by decide),
    (C10_normalizer_amended " 1e3 ").2 _ (by decide),
    (C10_normalizer_amended "inf").2 _ (by decide),
    (C10_normalizer_amended "nan").2 _ (by decide)⟩

example : safe_float_convert "" = none := by decide
example : safe_float_convert "Undetermined" = some (.finite ⟨40, 1⟩) := by decide
example : safe_float_convert " undetermined " = some (.finite ⟨40, 1⟩) := by decide
example : safe_float_convert "23.45" = some (.finite ⟨469, 20⟩) := by decide
example : safe_float_convert "abc" = none := by decide
example : safe_float_convert "  " = none := by decide
example : safe_float_convert "-1.5e2" = some (.finite ⟨-150, 1⟩) := by decide
example : safe_float_convert "1_0.2_5" = some (.finite ⟨41, 4⟩) := by decide
example : safe_float_convert "1__0" = none := by decide
example : safe_float_convert "1_" = none := by decide
example : safe_float_convert "_1" = none := by decide
example : safe_float_convert " -Inf" = some (.inf true) := by decide
example : safe_float_convert "NAN" = some .nan := by decide
example : safe_float_convert "1." = some (.finite ⟨1, 1⟩) := by decide
example : safe_float_convert ".5" = some (.finite ⟨1, 2⟩) := by decide
example : safe_float_convert "." = none := by decide
example : safe_float_convert "1.e2" = some (.finite ⟨100, 1⟩) := by decide
example : safe_float_convert "1e" = none := by decide
example : safe_float_convert "+40" = some (.finite ⟨40, 1⟩) := by decide
example : safe_float_convert "4 0" = none := by decide
example : pyFloatParse "1e-2" = some (.finite ⟨1, 100⟩) := by decide
